import Mathlib

/-!
Verification of the egui Oklab/Oklch color-picker widget (`src/lib.rs`).

Numeric values (`f32` in the source) are modelled as rationals, so all
arithmetic identities below are exact.  The host-framework helpers
`lerp` and `remap_clamp` (from egui's `emath`, used by the widget at
lines 113, 141, 170-171 and 200-201) are embedded verbatim.
-/

/-- Linear interpolation over a range, as egui's `lerp(range, t)`:
`(1 - t) * start + t * end`. -/
def lerp (a b t : ℚ) : ℚ := (1 - t) * a + t * b

/-- The body of egui's `remap_clamp` once the source range is oriented
with `lo ≤ hi`: clamp `x` into `[lo, hi]`, then map linearly onto the
target range `[t1, t2]` (with the numeric guard `1 ≤ t` of the source). -/
def remapClampCore (x lo hi t1 t2 : ℚ) : ℚ :=
  if x ≤ lo then t1
  else if hi ≤ x then t2
  else
    let t := (x - lo) / (hi - lo)
    if 1 ≤ t then t2 else lerp t1 t2 t

/-- egui's `remap_clamp(x, a1..=a2, b1..=b2)`: if the source range is
reversed, both ranges are flipped first. -/
def remap_clamp (x a1 a2 b1 b2 : ℚ) : ℚ :=
  if a2 < a1 then remapClampCore x a2 a1 b2 b1 else remapClampCore x a1 a2 b1 b2

/-- Forward interaction mapping of `color_slider_1d` (line 113):
pointer x-coordinate over the rect `[l, r]` mapped into the declared
value range `[lo, hi]`. -/
def pixel_to_value (px l r lo hi : ℚ) : ℚ := remap_clamp px l r lo hi

/-- Reverse interaction mapping of `color_slider_1d` (line 141): the
current value mapped back to the indicator's pixel x-coordinate. -/
def value_to_pixel (v lo hi l r : ℚ) : ℚ := lerp l r (remap_clamp v lo hi 0 1)

/-- Forward interaction mapping of `color_slider_2d` (lines 170-171):
the x pointer coordinate is remapped over `left..=right` into the first
range, the y pointer coordinate over `bottom..=top` into the second. -/
def slider2d_values (px py l r top bottom x1 x2 y1 y2 : ℚ) : ℚ × ℚ :=
  (remap_clamp px l r x1 x2, remap_clamp py bottom top y1 y2)

/-- The `f32` value of `core::f32::consts::PI` used by the hue slider
(line 259), exactly: `13176795 / 2^22`. -/
def PI32 : ℚ := 13176795 / 4194304

/-- Value written into the working color's hue field by the hue slider
(lines 113 and 259): pointer x remapped into `-PI..=PI`. -/
def hue_slider_value (px l r : ℚ) : ℚ := remap_clamp px l r (-PI32) PI32

theorem lerp_zero (a b : ℚ) : lerp a b 0 = a := by simp [lerp]

theorem lerp_one (a b : ℚ) : lerp a b 1 = b := by simp [lerp]

theorem lerp_same (v t : ℚ) : lerp v v t = v := by unfold lerp; ring

theorem remapClampCore_same (x lo hi v : ℚ) : remapClampCore x lo hi v v = v := by
  unfold remapClampCore
  split
  · rfl
  · split
    · rfl
    · dsimp only
      split
      · rfl
      · exact lerp_same v _

theorem remap_clamp_same (x a1 a2 v : ℚ) : remap_clamp x a1 a2 v v = v := by
  unfold remap_clamp
  split <;> exact remapClampCore_same ..

theorem remapClampCore_of_le_lo (x lo hi t1 t2 : ℚ) (h : x ≤ lo) :
    remapClampCore x lo hi t1 t2 = t1 := by
  unfold remapClampCore
  rw [if_pos h]

theorem remapClampCore_of_ge_hi (x lo hi t1 t2 : ℚ) (h1 : lo < x) (h2 : hi ≤ x) :
    remapClampCore x lo hi t1 t2 = t2 := by
  unfold remapClampCore
  rw [if_neg (not_le.2 h1), if_pos h2]

theorem remapClampCore_interior (x lo hi t1 t2 : ℚ) (h1 : lo < x) (h2 : x < hi) :
    remapClampCore x lo hi t1 t2 = lerp t1 t2 ((x - lo) / (hi - lo)) := by
  have ht1 : (x - lo) / (hi - lo) < 1 := (div_lt_one (by linarith)).2 (by linarith)
  unfold remapClampCore
  rw [if_neg (not_le.2 h1), if_neg (not_le.2 h2)]
  dsimp only
  rw [if_neg (not_le.2 ht1)]

theorem lerp_bounds (a b t : ℚ) (h0 : 0 ≤ t) (h1 : t ≤ 1) :
    min a b ≤ lerp a b t ∧ lerp a b t ≤ max a b := by
  unfold lerp
  rcases le_total a b with hab | hab
  · rw [min_eq_left hab, max_eq_right hab]
    constructor
    · nlinarith [mul_nonneg h0 (sub_nonneg.2 hab)]
    · nlinarith [mul_nonneg (sub_nonneg.2 h1) (sub_nonneg.2 hab)]
  · rw [min_eq_right hab, max_eq_left hab]
    constructor
    · nlinarith [mul_nonneg (sub_nonneg.2 h1) (sub_nonneg.2 hab)]
    · nlinarith [mul_nonneg h0 (sub_nonneg.2 hab)]

theorem remapClampCore_bounds (x lo hi t1 t2 : ℚ) :
    min t1 t2 ≤ remapClampCore x lo hi t1 t2 ∧ remapClampCore x lo hi t1 t2 ≤ max t1 t2 := by
  unfold remapClampCore
  split
  · exact ⟨min_le_left .., le_max_left ..⟩
  · split
    · exact ⟨min_le_right .., le_max_right ..⟩
    · dsimp only
      split
      · exact ⟨min_le_right .., le_max_right ..⟩
      · rename_i hx1 hx2 hguard
        have hlo : lo < x := not_le.1 hx1
        have hhi : x < hi := not_le.1 hx2
        exact lerp_bounds t1 t2 _
          (le_of_lt (div_pos (by linarith) (by linarith))) (le_of_lt (not_le.1 hguard))

theorem remap_clamp_bounds (x a1 a2 t1 t2 : ℚ) :
    min t1 t2 ≤ remap_clamp x a1 a2 t1 t2 ∧ remap_clamp x a1 a2 t1 t2 ≤ max t1 t2 := by
  unfold remap_clamp
  split
  · rw [min_comm, max_comm]
    exact remapClampCore_bounds ..
  · exact remapClampCore_bounds ..

/-- C6: For a non-degenerate interaction region `[l, r]` and any value
`v` inside the declared range `[lo, hi]`, mapping `v` to the indicator
pixel position (line 141) and back through the forward pointer mapping
(line 113) returns `v` exactly. -/
theorem pixel_value_roundtrip (l r lo hi v : ℚ)
    (hlr : l < r) (hlov : lo ≤ v) (hvhi : v ≤ hi) :
    pixel_to_value (value_to_pixel v lo hi l r) l r lo hi = v := by
  have hlohi : lo ≤ hi := hlov.trans hvhi
  unfold value_to_pixel pixel_to_value remap_clamp
  rw [if_neg (not_lt.2 hlohi), if_neg (not_lt.2 (le_of_lt hlr))]
  rcases le_or_lt v lo with hvlo | hvlo
  · -- v is at (or clamped to) the bottom of the range: pixel is the left edge
    have hveq : v = lo := le_antisymm hvlo hlov
    rw [remapClampCore_of_le_lo _ _ _ _ _ hvlo, lerp_zero,
        remapClampCore_of_le_lo _ _ _ _ _ (le_refl l), hveq]
  · rcases le_or_lt hi v with hvhi' | hvhi'
    · -- v at the top of the range: pixel is the right edge
      have hveq : v = hi := le_antisymm hvhi hvhi'
      rw [remapClampCore_of_ge_hi _ _ _ _ _ hvlo hvhi', lerp_one,
          remapClampCore_of_ge_hi _ _ _ _ _ hlr (le_refl r), hveq]
    · -- interior value: exact linear round trip
      have hlohi' : lo < hi := hvlo.trans hvhi'
      set t : ℚ := (v - lo) / (hi - lo) with ht
      have ht0 : 0 < t := div_pos (by linarith) (by linarith)
      have ht1 : t < 1 := (div_lt_one (by linarith)).2 (by linarith)
      rw [remapClampCore_interior _ _ _ _ _ hvlo hvhi']
      have hlerp01 : lerp 0 1 ((v - lo) / (hi - lo)) = t := by
        rw [ht]; unfold lerp; ring
      rw [hlerp01]
      have hpx_lo : l < lerp l r t := by
        have : lerp l r t - l = t * (r - l) := by unfold lerp; ring
        nlinarith
      have hpx_hi : lerp l r t < r := by
        have : r - lerp l r t = (1 - t) * (r - l) := by unfold lerp; ring
        nlinarith
      rw [remapClampCore_interior _ _ _ _ _ hpx_lo hpx_hi]
      have harg : (lerp l r t - l) / (r - l) = t := by
        have hrl : r - l ≠ 0 := by linarith
        field_simp [lerp]
        ring
      rw [harg, ht]
      have hne : hi - lo ≠ 0 := sub_ne_zero.2 (ne_of_gt hlohi')
      unfold lerp
      calc (1 - (v - lo) / (hi - lo)) * lo + (v - lo) / (hi - lo) * hi
          = lo + (v - lo) / (hi - lo) * (hi - lo) := by ring
        _ = lo + (v - lo) := by rw [div_mul_cancel₀ _ hne]
        _ = v := by ring

/-- Witness for `pixel_value_roundtrip` at `l = 0`, `r = 256`,
range `[2, 10]`, `v = 4`. -/
theorem pixel_value_roundtrip_witness :
    (0 : ℚ) < 256 ∧ (2 : ℚ) ≤ 4 ∧ (4 : ℚ) ≤ 10 ∧
      pixel_to_value (value_to_pixel 4 2 10 0 256) 0 256 2 10 = 4 :=
  ⟨by norm_num, by norm_num, by norm_num,
    pixel_value_roundtrip 0 256 2 10 4 (by norm_num) (by norm_num) (by norm_num)⟩

/-- C7: In the 2-D mapping (lines 170-171) the horizontal pointer
coordinate maps linearly into the first range (shown by the closed
affine formula for in-range pointers), the vertical coordinate maps
into the second range, and the vertical axis is inverted: a pointer at
the top edge yields the second range's upper bound `y2`, a pointer at
the bottom edge yields its lower bound `y1`. -/
theorem slider2d_axis_mapping (px py l r top bottom x1 x2 y1 y2 : ℚ)
    (htb : top < bottom) (hlr : l < r) (hpxl : l ≤ px) (hpxr : px ≤ r) :
    (slider2d_values px top l r top bottom x1 x2 y1 y2).2 = y2 ∧
    (slider2d_values px bottom l r top bottom x1 x2 y1 y2).2 = y1 ∧
    (slider2d_values px py l r top bottom x1 x2 y1 y2).1
      = x1 + (px - l) / (r - l) * (x2 - x1) := by
  refine ⟨?_, ?_, ?_⟩
  · show remap_clamp top bottom top y1 y2 = y2
    unfold remap_clamp
    rw [if_pos htb, remapClampCore_of_le_lo _ _ _ _ _ (le_refl top)]
  · show remap_clamp bottom bottom top y1 y2 = y1
    unfold remap_clamp
    rw [if_pos htb, remapClampCore_of_ge_hi _ _ _ _ _ htb (le_refl bottom)]
  · show remap_clamp px l r x1 x2 = x1 + (px - l) / (r - l) * (x2 - x1)
    unfold remap_clamp
    rw [if_neg (not_lt.2 (le_of_lt hlr))]
    rcases eq_or_lt_of_le hpxl with hpx | hpx
    · rw [remapClampCore_of_le_lo _ _ _ _ _ (le_of_eq hpx.symm), ← hpx]
      simp
    · rcases eq_or_lt_of_le hpxr with hpx' | hpx'
      · have hrl : r - l ≠ 0 := by linarith
        rw [hpx', remapClampCore_of_ge_hi _ _ _ _ _ hlr (le_refl r), div_self hrl]
        ring
      · rw [remapClampCore_interior _ _ _ _ _ hpx hpx']
        unfold lerp
        ring

/-- Witness for `slider2d_axis_mapping` with rect `[0,10] × [20,30]`
(top = 20, bottom = 30), ranges `[0, 1/2]` and `[0,1]`, pointer x = 5. -/
theorem slider2d_axis_mapping_witness :
    (20 : ℚ) < 30 ∧ (0 : ℚ) < 10 ∧ (0 : ℚ) ≤ 5 ∧ (5 : ℚ) ≤ 10 ∧
      ((slider2d_values 5 20 0 10 20 30 0 (1/2) 0 1).2 = 1 ∧
       (slider2d_values 5 30 0 10 20 30 0 (1/2) 0 1).2 = 0 ∧
       (slider2d_values 5 7 0 10 20 30 0 (1/2) 0 1).1
         = 0 + (5 - 0) / (10 - 0) * (1/2 - 0)) :=
  ⟨by norm_num, by norm_num, by norm_num, by norm_num,
    slider2d_axis_mapping 5 7 0 10 20 30 0 (1/2) 0 1
      (by norm_num) (by norm_num) (by norm_num) (by norm_num)⟩

/-- C8: With a degenerate declared range (`min = max = v`), the forward
interaction mappings of both sliders (lines 113 and 170-171) are total
and return the single boundary value for every pointer position: no
division by zero occurs because the linear-interpolation branch reduces
to the constant `v`. -/
theorem degenerate_range_returns_boundary :
    ∀ px py l r top bottom v w : ℚ,
      pixel_to_value px l r v v = v ∧
      slider2d_values px py l r top bottom v v w w = (v, w) := by
  intro px py l r top bottom v w
  exact ⟨remap_clamp_same .., by
    unfold slider2d_values
    rw [remap_clamp_same, remap_clamp_same]⟩

/-- C10 counterexample: a pointer at the left edge of the hue slider
writes exactly `-PI32` into the hue field, which is not in the
half-open interval `(-PI32, PI32]`. -/
theorem hue_left_edge_escapes_halfopen :
    hue_slider_value 0 0 256 = -PI32 ∧
      ¬(-PI32 < hue_slider_value 0 0 256 ∧ hue_slider_value 0 0 256 ≤ PI32) := by
  have h : hue_slider_value 0 0 256 = -PI32 := by
    norm_num [hue_slider_value, remap_clamp, remapClampCore]
  refine ⟨h, ?_⟩
  rw [h]
  simp

/-- C10 amended: for every pointer position and every slider rect, the
hue value written by the hue slider (lines 113 and 259) lies in the
closed interval `[-PI32, PI32]` (the left edge attains `-PI32`, so the
half-open interval `(-PI32, PI32]` of the data model is not invariant). -/
theorem hue_slider_value_in_closed_interval :
    ∀ px l r : ℚ, -PI32 ≤ hue_slider_value px l r ∧ hue_slider_value px l r ≤ PI32 := by
  intro px l r
  have h := remap_clamp_bounds px l r (-PI32) PI32
  have hmin : min (-PI32) PI32 = -PI32 := by
    rw [min_eq_left]
    unfold PI32
    norm_num
  have hmax : max (-PI32) PI32 = PI32 := by
    rw [max_eq_right]
    unfold PI32
    norm_num
  rw [hmin, hmax] at h
  exact h

/-!
Gradient tessellators.  `color_slider_1d` (lines 120-135) and
`color_slider_2d` (lines 175-194) build an egui `Mesh` by pushing
vertices and triangle index triples inside a loop; `buildRows` models
that imperative accumulation (iteration `i` appends the block `g i`).
-/

/-- Number of vertices per dimension in the color sliders
(`const N: u32 = 6 * 6`, line 37). -/
def N : ℕ := 6 * 6

/-- Accumulated list after `a` loop iterations, iteration `i`
appending the block `g i`. -/
def buildRows {α : Type} (g : ℕ → List α) : ℕ → List α
  | 0 => []
  | a + 1 => buildRows g a ++ g a

theorem buildRows_length_const {α : Type} (g : ℕ → List α) (b : ℕ)
    (hg : ∀ i, (g i).length = b) : ∀ a, (buildRows g a).length = a * b
  | 0 => by simp [buildRows]
  | a + 1 => by
    rw [buildRows, List.length_append, buildRows_length_const g b hg a, hg a,
      Nat.succ_mul]

theorem buildRows_length_guard {α : Type} (g : ℕ → List α) (n c : ℕ)
    (hg : ∀ i, (g i).length = if i < n then c else 0) :
    ∀ a, (buildRows g a).length = c * min a n
  | 0 => by simp [buildRows]
  | a + 1 => by
    rw [buildRows, List.length_append, buildRows_length_guard g n c hg a, hg a]
    by_cases h : a < n
    · rw [if_pos h, Nat.min_eq_left (by omega), Nat.min_eq_left (by omega)]
      ring
    · rw [if_neg h, Nat.min_eq_right (by omega), Nat.min_eq_right (by omega),
        Nat.add_zero]

theorem buildRows_getElem {α : Type} (g : ℕ → List α) (b : ℕ)
    (hg : ∀ i, (g i).length = b) (q r : ℕ) (hr : r < b) :
    ∀ a, q < a → (buildRows g a)[q * b + r]? = (g q)[r]?
  | 0, h => absurd h (Nat.not_lt_zero q)
  | a + 1, h => by
    rw [buildRows]
    rcases Nat.lt_or_ge q a with hq | hq
    · have hlt : q * b + r < (buildRows g a).length := by
        rw [buildRows_length_const g b hg a]
        have h1 : q * b + r < (q + 1) * b := by
          rw [Nat.succ_mul]; omega
        exact h1.trans_le (Nat.mul_le_mul_right b hq)
      rw [List.getElem?_append, if_pos hlt]
      exact buildRows_getElem g b hg q r hr a hq
    · have hqa : q = a := by omega
      subst hqa
      rw [List.getElem?_append,
        if_neg (by rw [buildRows_length_const g b hg]; omega),
        buildRows_length_const g b hg]
      congr 1
      omega

theorem buildRows_mem {α : Type} (g : ℕ → List α) (x : α) :
    ∀ a, x ∈ buildRows g a ↔ ∃ i, i < a ∧ x ∈ g i
  | 0 => by simp [buildRows]
  | a + 1 => by
    rw [buildRows, List.mem_append, buildRows_mem g x a]
    constructor
    · rintro (⟨i, hi, hx⟩ | hx)
      · exact ⟨i, by omega, hx⟩
      · exact ⟨a, by omega, hx⟩
    · rintro ⟨i, hi, hx⟩
      rcases Nat.lt_or_ge i a with h | h
      · exact Or.inl ⟨i, h, hx⟩
      · have : i = a := by omega
        subst this
        exact Or.inr hx

theorem buildRows_singleton {α : Type} (u : ℕ → α) :
    ∀ b, buildRows (fun j => [u j]) b = (List.range b).map u
  | 0 => by simp [buildRows]
  | b + 1 => by
    rw [buildRows, buildRows_singleton u b, List.range_succ, List.map_append,
      List.map_singleton]

theorem buildRows_nested_singleton {α : Type} (P : ℕ → ℕ → α) (b : ℕ) :
    ∀ a, buildRows (fun i => buildRows (fun j => [P i j]) b) a
      = (List.range (a * b)).map (fun k => P (k / b) (k % b))
  | 0 => by simp [buildRows]
  | a + 1 => by
    rcases Nat.eq_zero_or_pos b with hb | hb
    · subst hb
      rw [buildRows, buildRows_nested_singleton P 0 a]
      simp [buildRows]
    rw [buildRows, buildRows_nested_singleton P b a, buildRows_singleton,
      Nat.succ_mul, List.range_add, List.map_append, List.map_map]
    congr 1
    apply List.map_congr_left
    intro j hj
    have hjb : j < b := List.mem_range.1 hj
    have hdiv : (a * b + j) / b = a := by
      rw [mul_comm a b, Nat.mul_add_div hb, Nat.div_eq_of_lt hjb, Nat.add_zero]
    have hmod : (a * b + j) % b = j := by
      rw [mul_comm a b, Nat.mul_add_mod, Nat.mod_eq_of_lt hjb]
    show P a j = P ((a * b + j) / b) ((a * b + j) % b)
    rw [hdiv, hmod]

/-- A colored triangle mesh: vertex list (position, color) plus a list
of triangle index triples, as egui's `Mesh` receives them through
`colored_vertex` and `add_triangle`. -/
structure Mesh (α : Type) where
  verts : List ((ℚ × ℚ) × α)
  tris : List (ℕ × ℕ × ℕ)

/-- Mesh of `color_slider_2d`, additionally recording `calls`: the
argument pairs passed to the color closure, in evaluation order (the
single `color_at(..)` call per loop iteration, line 181). -/
structure Mesh2 (α : Type) where
  verts : List ((ℚ × ℚ) × α)
  tris : List (ℕ × ℕ × ℕ)
  calls : List (ℚ × ℚ)

/-- Sample parameter `i as f32 / n as f32`. -/
def tpar (n i : ℕ) : ℚ := (i : ℚ) / (n : ℚ)

/-- The gradient mesh built by `color_slider_1d` (lines 120-135) over
the rect `[l, r] × [top, bottom]` with value range `[lo, hi]`:
iteration `i ∈ 0..=n` pushes a top and a bottom vertex at
`x = lerp(l..=r, i/n)` colored `f (lerp(lo..=hi, i/n))`, and for
`i < n` the two triangles `(2i, 2i+1, 2i+2)` and `(2i+1, 2i+2, 2i+3)`. -/
def mesh1d {α : Type} (n : ℕ) (l r top bottom lo hi : ℚ) (f : ℚ → α) : Mesh α where
  verts := buildRows (fun i =>
    [((lerp l r (tpar n i), top), f (lerp lo hi (tpar n i))),
     ((lerp l r (tpar n i), bottom), f (lerp lo hi (tpar n i)))]) (n + 1)
  tris := buildRows (fun i =>
    if i < n then [(2*i, 2*i + 1, 2*i + 2), (2*i + 1, 2*i + 2, 2*i + 3)] else []) (n + 1)

/-- The gradient mesh built by `color_slider_2d` (lines 175-194):
nested loops `xi ∈ 0..=n`, `yi ∈ 0..=n`; each iteration evaluates the
color closure once and pushes one vertex at
`(lerp(l..=r, xi/n), lerp(bottom..=top, yi/n))`; for `xi < n ∧ yi < n`
it pushes the two triangles of the source with
`tl = yi * (n+1) + xi`, `x_offset = 1`, `y_offset = n+1`. -/
def mesh2d {α : Type} (n : ℕ) (l r top bottom x1 x2 y1 y2 : ℚ) (f : ℚ → ℚ → α) :
    Mesh2 α where
  verts := buildRows (fun xi => buildRows (fun yi =>
    [((lerp l r (tpar n xi), lerp bottom top (tpar n yi)),
      f (lerp x1 x2 (tpar n xi)) (lerp y1 y2 (tpar n yi)))]) (n + 1)) (n + 1)
  tris := buildRows (fun xi => buildRows (fun yi =>
    if xi < n ∧ yi < n then
      [(yi*(n+1) + xi, yi*(n+1) + xi + 1, yi*(n+1) + xi + (n+1)),
       (yi*(n+1) + xi + 1, yi*(n+1) + xi + (n+1), yi*(n+1) + xi + (n+1) + 1)]
    else []) (n + 1)) (n + 1)
  calls := buildRows (fun xi => buildRows (fun yi =>
    [(lerp x1 x2 (tpar n xi), lerp y1 y2 (tpar n yi))]) (n + 1)) (n + 1)

/-- Position of vertex `i` in a vertex list (default `(0,0)` out of range). -/
def vpos {α : Type} (vs : List ((ℚ × ℚ) × α)) (i : ℕ) : ℚ × ℚ :=
  ((vs[i]?).map Prod.fst).getD (0, 0)

/-- Twice the signed area of the triangle `A B C` in the position plane. -/
def area2 (A B C : ℚ × ℚ) : ℚ :=
  (B.1 - A.1) * (C.2 - A.2) - (B.2 - A.2) * (C.1 - A.1)

/-- Twice the signed area of an indexed triangle of a mesh. -/
def triArea {α : Type} (vs : List ((ℚ × ℚ) × α)) (t : ℕ × ℕ × ℕ) : ℚ :=
  area2 (vpos vs t.1) (vpos vs t.2.1) (vpos vs t.2.2)

theorem tpar_zero (n : ℕ) : tpar n 0 = 0 := by simp [tpar]

theorem tpar_self (n : ℕ) (hn : 0 < n) : tpar n n = 1 := by
  have : (n : ℚ) ≠ 0 := Nat.cast_ne_zero.2 hn.ne'
  simp [tpar, this]

theorem tpar_succ_sub (n i : ℕ) (hn : 0 < n) : tpar n (i + 1) - tpar n i = 1 / n := by
  have h : (n : ℚ) ≠ 0 := Nat.cast_ne_zero.2 hn.ne'
  unfold tpar
  push_cast
  field_simp

theorem lerp_diff (a b s t : ℚ) : lerp a b t - lerp a b s = (t - s) * (b - a) := by
  unfold lerp; ring

theorem mesh1d_vert_top {α : Type} (n : ℕ) (l r top bottom lo hi : ℚ) (f : ℚ → α)
    (i : ℕ) (hi' : i < n + 1) :
    (mesh1d n l r top bottom lo hi f).verts[2*i]?
      = some ((lerp l r (tpar n i), top), f (lerp lo hi (tpar n i))) := by
  have h := buildRows_getElem
    (fun i => [((lerp l r (tpar n i), top), f (lerp lo hi (tpar n i))),
               ((lerp l r (tpar n i), bottom), f (lerp lo hi (tpar n i)))])
    2 (fun _ => rfl) i 0 (by omega) (n + 1) hi'
  rw [Nat.add_zero] at h
  rw [mesh1d, mul_comm 2 i]
  exact h

theorem mesh1d_vert_bot {α : Type} (n : ℕ) (l r top bottom lo hi : ℚ) (f : ℚ → α)
    (i : ℕ) (hi' : i < n + 1) :
    (mesh1d n l r top bottom lo hi f).verts[2*i + 1]?
      = some ((lerp l r (tpar n i), bottom), f (lerp lo hi (tpar n i))) := by
  have h := buildRows_getElem
    (fun i => [((lerp l r (tpar n i), top), f (lerp lo hi (tpar n i))),
               ((lerp l r (tpar n i), bottom), f (lerp lo hi (tpar n i)))])
    2 (fun _ => rfl) i 1 (by omega) (n + 1) hi'
  rw [mesh1d, mul_comm 2 i]
  exact h

theorem mesh1d_tri_mem {α : Type} (n : ℕ) (l r top bottom lo hi : ℚ) (f : ℚ → α)
    (t : ℕ × ℕ × ℕ) (ht : t ∈ (mesh1d n l r top bottom lo hi f).tris) :
    ∃ i, i < n ∧
      (t = (2*i, 2*i + 1, 2*i + 2) ∨ t = (2*i + 1, 2*i + 2, 2*i + 3)) := by
  rw [mesh1d, buildRows_mem] at ht
  obtain ⟨i, hia, hmem⟩ := ht
  by_cases hin : i < n
  · rw [if_pos hin] at hmem
    simp only [List.mem_cons, List.not_mem_nil, or_false] at hmem
    rcases hmem with h | h
    · exact ⟨i, hin, Or.inl h⟩
    · exact ⟨i, hin, Or.inr h⟩
  · rw [if_neg hin] at hmem
    exact absurd hmem (List.not_mem_nil t)

theorem mesh1d_triArea_first {α : Type} (n : ℕ) (l r top bottom lo hi : ℚ)
    (f : ℚ → α) (hn : 0 < n) (i : ℕ) (hin : i < n) :
    triArea (mesh1d n l r top bottom lo hi f).verts (2*i, 2*i + 1, 2*i + 2)
      = -((bottom - top) * ((r - l) / n)) := by
  have hΔx : lerp l r (tpar n (i+1)) - lerp l r (tpar n i) = (r - l) / n := by
    rw [lerp_diff, tpar_succ_sub n i hn, one_div, inv_mul_eq_div]
  have v1 := mesh1d_vert_top n l r top bottom lo hi f i (by omega)
  have v2 := mesh1d_vert_bot n l r top bottom lo hi f i (by omega)
  have v3 : (mesh1d n l r top bottom lo hi f).verts[2*i + 2]?
      = some ((lerp l r (tpar n (i+1)), top), f (lerp lo hi (tpar n (i+1)))) := by
    rw [show 2*i + 2 = 2*(i+1) by ring]
    exact mesh1d_vert_top n l r top bottom lo hi f (i+1) (by omega)
  unfold triArea vpos area2
  dsimp only
  rw [v1, v2, v3]
  simp only [Option.map_some', Option.getD_some]
  rw [← hΔx]
  ring

theorem mesh1d_triArea_second {α : Type} (n : ℕ) (l r top bottom lo hi : ℚ)
    (f : ℚ → α) (hn : 0 < n) (i : ℕ) (hin : i < n) :
    triArea (mesh1d n l r top bottom lo hi f).verts (2*i + 1, 2*i + 2, 2*i + 3)
      = (bottom - top) * ((r - l) / n) := by
  have hΔx : lerp l r (tpar n (i+1)) - lerp l r (tpar n i) = (r - l) / n := by
    rw [lerp_diff, tpar_succ_sub n i hn, one_div, inv_mul_eq_div]
  have v1 := mesh1d_vert_bot n l r top bottom lo hi f i (by omega)
  have v2 : (mesh1d n l r top bottom lo hi f).verts[2*i + 2]?
      = some ((lerp l r (tpar n (i+1)), top), f (lerp lo hi (tpar n (i+1)))) := by
    rw [show 2*i + 2 = 2*(i+1) by ring]
    exact mesh1d_vert_top n l r top bottom lo hi f (i+1) (by omega)
  have v3 : (mesh1d n l r top bottom lo hi f).verts[2*i + 3]?
      = some ((lerp l r (tpar n (i+1)), bottom), f (lerp lo hi (tpar n (i+1)))) := by
    rw [show 2*i + 3 = 2*(i+1) + 1 by ring]
    exact mesh1d_vert_bot n l r top bottom lo hi f (i+1) (by omega)
  unfold triArea vpos area2
  dsimp only
  rw [v1, v2, v3]
  simp only [Option.map_some', Option.getD_some]
  rw [← hΔx]
  ring

/-- C3: For positive `n` a multiple of 6 (the source fixes `N = 36`)
and a non-degenerate rect and any color function, the 1-D tessellator
produces exactly `2(n+1)` vertices (n+1 top/bottom column pairs) and
`2n` triangles, every triangle has nonzero area, and the first and
last columns are sampled exactly at `t = 0` and `t = 1` (positions at
the rect edges, colors at the range endpoints). -/
theorem mesh1d_counts_nondegenerate {α : Type} (n : ℕ) (l r top bottom lo hi : ℚ)
    (f : ℚ → α) (hn : 0 < n) (h6 : 6 ∣ n) (hlr : l < r) (htb : top < bottom) :
    (mesh1d n l r top bottom lo hi f).verts.length = 2 * (n + 1) ∧
    (mesh1d n l r top bottom lo hi f).tris.length = 2 * n ∧
    (mesh1d n l r top bottom lo hi f).tris.all
      (fun t => decide (triArea (mesh1d n l r top bottom lo hi f).verts t ≠ 0)) = true ∧
    (mesh1d n l r top bottom lo hi f).verts[0]? = some ((l, top), f lo) ∧
    (mesh1d n l r top bottom lo hi f).verts[2*n + 1]? = some ((r, bottom), f hi) := by
  have hΔpos : 0 < (bottom - top) * ((r - l) / n) :=
    mul_pos (by linarith) (div_pos (by linarith) (Nat.cast_pos.2 hn))
  refine ⟨?_, ?_, ?_, ?_, ?_⟩
  · have h := buildRows_length_const
      (fun i => [((lerp l r (tpar n i), top), f (lerp lo hi (tpar n i))),
                 ((lerp l r (tpar n i), bottom), f (lerp lo hi (tpar n i)))])
      2 (fun _ => rfl) (n+1)
    exact h.trans (Nat.mul_comm _ _)
  · have h := buildRows_length_guard
      (fun i => if i < n then
        [(2*i, 2*i + 1, 2*i + 2), (2*i + 1, 2*i + 2, 2*i + 3)] else [])
      n 2 (fun i => by by_cases h : i < n <;> simp [h]) (n+1)
    exact h.trans (by rw [Nat.min_eq_right (by omega)])
  · rw [List.all_eq_true]
    intro t ht
    obtain ⟨i, hin, hti⟩ := mesh1d_tri_mem n l r top bottom lo hi f t ht
    apply decide_eq_true
    rcases hti with h | h <;> subst h
    · rw [mesh1d_triArea_first n l r top bottom lo hi f hn i hin]
      intro hc
      rw [neg_eq_zero] at hc
      linarith
    · rw [mesh1d_triArea_second n l r top bottom lo hi f hn i hin]
      linarith
  · have h := mesh1d_vert_top n l r top bottom lo hi f 0 (by omega)
    rw [Nat.mul_zero, tpar_zero, lerp_zero, lerp_zero] at h
    exact h
  · have h := mesh1d_vert_bot n l r top bottom lo hi f n (by omega)
    rw [tpar_self n hn, lerp_one, lerp_one] at h
    exact h

/-- Witness for `mesh1d_counts_nondegenerate` at the source's `N = 36`
over the unit rect with range `[0, 1]` and the identity color map. -/
theorem mesh1d_counts_nondegenerate_witness :
    (0 < N ∧ 6 ∣ N ∧ (0:ℚ) < 1 ∧ (0:ℚ) < 1) ∧
    ((mesh1d N 0 1 0 1 0 1 (id : ℚ → ℚ)).verts.length = 2 * (N + 1) ∧
     (mesh1d N 0 1 0 1 0 1 (id : ℚ → ℚ)).tris.length = 2 * N ∧
     (mesh1d N 0 1 0 1 0 1 (id : ℚ → ℚ)).tris.all
       (fun t => decide (triArea (mesh1d N 0 1 0 1 0 1 (id : ℚ → ℚ)).verts t ≠ 0)) = true ∧
     (mesh1d N 0 1 0 1 0 1 (id : ℚ → ℚ)).verts[0]? = some ((0, 0), id (0:ℚ)) ∧
     (mesh1d N 0 1 0 1 0 1 (id : ℚ → ℚ)).verts[2*N + 1]? = some ((1, 1), id (1:ℚ))) :=
  ⟨⟨by norm_num [N], by norm_num [N], one_pos, one_pos⟩,
    mesh1d_counts_nondegenerate N 0 1 0 1 0 1 id
      (by norm_num [N]) (by norm_num [N]) one_pos one_pos⟩

theorem grid_div (n a b : ℕ) (hb : b < n + 1) : (a * (n + 1) + b) / (n + 1) = a := by
  rw [mul_comm, Nat.mul_add_div (by omega), Nat.div_eq_of_lt hb, Nat.add_zero]

theorem grid_mod (n a b : ℕ) (hb : b < n + 1) : (a * (n + 1) + b) % (n + 1) = b := by
  rw [mul_comm, Nat.mul_add_mod, Nat.mod_eq_of_lt hb]

theorem mesh2d_verts_eq {α : Type} (n : ℕ) (l r top bottom x1 x2 y1 y2 : ℚ)
    (f : ℚ → ℚ → α) :
    (mesh2d n l r top bottom x1 x2 y1 y2 f).verts
      = (List.range ((n+1) * (n+1))).map (fun k =>
          ((lerp l r (tpar n (k / (n+1))), lerp bottom top (tpar n (k % (n+1)))),
           f (lerp x1 x2 (tpar n (k / (n+1)))) (lerp y1 y2 (tpar n (k % (n+1)))))) :=
  buildRows_nested_singleton
    (fun xi yi => ((lerp l r (tpar n xi), lerp bottom top (tpar n yi)),
      f (lerp x1 x2 (tpar n xi)) (lerp y1 y2 (tpar n yi)))) (n+1) (n+1)

theorem mesh2d_calls_eq {α : Type} (n : ℕ) (l r top bottom x1 x2 y1 y2 : ℚ)
    (f : ℚ → ℚ → α) :
    (mesh2d n l r top bottom x1 x2 y1 y2 f).calls
      = (List.range ((n+1) * (n+1))).map (fun k =>
          (lerp x1 x2 (tpar n (k / (n+1))), lerp y1 y2 (tpar n (k % (n+1))))) :=
  buildRows_nested_singleton
    (fun xi yi => (lerp x1 x2 (tpar n xi), lerp y1 y2 (tpar n yi))) (n+1) (n+1)

theorem mesh2d_tris_length {α : Type} (n : ℕ) (l r top bottom x1 x2 y1 y2 : ℚ)
    (f : ℚ → ℚ → α) :
    (mesh2d n l r top bottom x1 x2 y1 y2 f).tris.length = 2 * n * n := by
  have hg : ∀ xi, (buildRows (fun yi =>
      if xi < n ∧ yi < n then
        [(yi*(n+1) + xi, yi*(n+1) + xi + 1, yi*(n+1) + xi + (n+1)),
         (yi*(n+1) + xi + 1, yi*(n+1) + xi + (n+1), yi*(n+1) + xi + (n+1) + 1)]
      else []) (n + 1)).length = if xi < n then 2 * n else 0 := by
    intro xi
    by_cases hxi : xi < n
    · rw [if_pos hxi]
      have h := buildRows_length_guard
        (fun yi =>
          if xi < n ∧ yi < n then
            [(yi*(n+1) + xi, yi*(n+1) + xi + 1, yi*(n+1) + xi + (n+1)),
             (yi*(n+1) + xi + 1, yi*(n+1) + xi + (n+1), yi*(n+1) + xi + (n+1) + 1)]
          else [])
        n 2 (fun yi => by by_cases h : yi < n <;> simp [hxi, h]) (n+1)
      exact h.trans (by rw [Nat.min_eq_right (by omega)])
    · rw [if_neg hxi]
      have h := buildRows_length_const
        (fun yi =>
          if xi < n ∧ yi < n then
            [(yi*(n+1) + xi, yi*(n+1) + xi + 1, yi*(n+1) + xi + (n+1)),
             (yi*(n+1) + xi + 1, yi*(n+1) + xi + (n+1), yi*(n+1) + xi + (n+1) + 1)]
          else [])
        0 (fun yi => by simp [hxi]) (n+1)
      exact h.trans (Nat.mul_zero _)
  have h := buildRows_length_guard _ n (2 * n) hg (n+1)
  exact h.trans (by rw [Nat.min_eq_right (by omega)])

theorem mesh2d_tri_pair_mem {α : Type} (n : ℕ) (l r top bottom x1 x2 y1 y2 : ℚ)
    (f : ℚ → ℚ → α) (xi yi : ℕ) (hx : xi < n) (hy : yi < n) :
    (yi*(n+1) + xi, yi*(n+1) + xi + 1, yi*(n+1) + xi + (n+1))
        ∈ (mesh2d n l r top bottom x1 x2 y1 y2 f).tris ∧
    (yi*(n+1) + xi + 1, yi*(n+1) + xi + (n+1), yi*(n+1) + xi + (n+1) + 1)
        ∈ (mesh2d n l r top bottom x1 x2 y1 y2 f).tris := by
  constructor
  · exact (buildRows_mem _ _ _).2 ⟨xi, by omega,
      (buildRows_mem _ _ _).2 ⟨yi, by omega, by rw [if_pos ⟨hx, hy⟩]; simp⟩⟩
  · exact (buildRows_mem _ _ _).2 ⟨xi, by omega,
      (buildRows_mem _ _ _).2 ⟨yi, by omega, by rw [if_pos ⟨hx, hy⟩]; simp⟩⟩

theorem mesh2d_vpos {α : Type} (n : ℕ) (l r top bottom x1 x2 y1 y2 : ℚ)
    (f : ℚ → ℚ → α) (k : ℕ) (hk : k < (n+1) * (n+1)) :
    vpos (mesh2d n l r top bottom x1 x2 y1 y2 f).verts k
      = (lerp l r (tpar n (k / (n+1))), lerp bottom top (tpar n (k % (n+1)))) := by
  rw [vpos, mesh2d_verts_eq, List.getElem?_map, List.getElem?_range hk]
  simp

/-- C4: For every invocation of the 2-D tessellator, the mesh has
exactly `(n+1)^2` vertices and `2 n^2` triangles, and the color
closure is evaluated exactly once per grid vertex: the call trace has
exactly `(n+1)^2` entries and is in bijection with the vertex list
(entry `k` carries the grid parameters of vertex `k`, whose stored
color is the closure applied to exactly those parameters). -/
theorem mesh2d_counts_and_eval_once {α : Type} (n : ℕ)
    (l r top bottom x1 x2 y1 y2 : ℚ) (f : ℚ → ℚ → α) :
    (mesh2d n l r top bottom x1 x2 y1 y2 f).verts.length = (n+1)^2 ∧
    (mesh2d n l r top bottom x1 x2 y1 y2 f).tris.length = 2 * n^2 ∧
    (mesh2d n l r top bottom x1 x2 y1 y2 f).calls.length = (n+1)^2 ∧
    (mesh2d n l r top bottom x1 x2 y1 y2 f).calls
      = (List.range ((n+1)^2)).map (fun k =>
          (lerp x1 x2 (tpar n (k / (n+1))), lerp y1 y2 (tpar n (k % (n+1))))) ∧
    (mesh2d n l r top bottom x1 x2 y1 y2 f).verts
      = (List.range ((n+1)^2)).map (fun k =>
          ((lerp l r (tpar n (k / (n+1))), lerp bottom top (tpar n (k % (n+1)))),
           f (lerp x1 x2 (tpar n (k / (n+1)))) (lerp y1 y2 (tpar n (k % (n+1)))))) := by
  have hsq : (n+1)^2 = (n+1) * (n+1) := pow_two (n+1)
  refine ⟨?_, ?_, ?_, ?_, ?_⟩
  · rw [mesh2d_verts_eq, List.length_map, List.length_range, hsq]
  · rw [mesh2d_tris_length, pow_two]
    ring
  · rw [mesh2d_calls_eq, List.length_map, List.length_range, hsq]
  · rw [mesh2d_calls_eq, hsq]
  · rw [mesh2d_verts_eq, hsq]

theorem mesh2d_cellArea_first {α : Type} (n : ℕ) (l r top bottom x1 x2 y1 y2 : ℚ)
    (f : ℚ → ℚ → α) (hn : 0 < n) (xi yi : ℕ) (hx : xi < n) (hy : yi < n) :
    triArea (mesh2d n l r top bottom x1 x2 y1 y2 f).verts
        (yi*(n+1) + xi, yi*(n+1) + xi + 1, yi*(n+1) + xi + (n+1))
      = -(((top - bottom) / n) * ((r - l) / n)) := by
  have hΔX : lerp l r (tpar n (yi+1)) - lerp l r (tpar n yi) = (r - l) / n := by
    rw [lerp_diff, tpar_succ_sub n yi hn, one_div, inv_mul_eq_div]
  have hΔY : lerp bottom top (tpar n (xi+1)) - lerp bottom top (tpar n xi)
      = (top - bottom) / n := by
    rw [lerp_diff, tpar_succ_sub n xi hn, one_div, inv_mul_eq_div]
  have p1 := mesh2d_vpos n l r top bottom x1 x2 y1 y2 f (yi*(n+1) + xi)
    (by nlinarith)
  have p2 := mesh2d_vpos n l r top bottom x1 x2 y1 y2 f (yi*(n+1) + xi + 1)
    (by nlinarith)
  have p3 := mesh2d_vpos n l r top bottom x1 x2 y1 y2 f (yi*(n+1) + xi + (n+1))
    (by nlinarith)
  rw [grid_div n yi xi (by omega), grid_mod n yi xi (by omega)] at p1
  rw [show yi*(n+1) + xi + 1 = yi*(n+1) + (xi+1) by ring,
    grid_div n yi (xi+1) (by omega), grid_mod n yi (xi+1) (by omega)] at p2
  rw [show yi*(n+1) + xi + (n+1) = (yi+1)*(n+1) + xi by ring,
    grid_div n (yi+1) xi (by omega), grid_mod n (yi+1) xi (by omega)] at p3
  unfold triArea
  dsimp only
  rw [show yi*(n+1) + xi + 1 = yi*(n+1) + (xi+1) by ring,
    show yi*(n+1) + xi + (n+1) = (yi+1)*(n+1) + xi by ring]
  rw [p1, p2, p3]
  unfold area2
  dsimp only
  rw [← hΔX, ← hΔY]
  ring

theorem mesh2d_cellArea_second {α : Type} (n : ℕ) (l r top bottom x1 x2 y1 y2 : ℚ)
    (f : ℚ → ℚ → α) (hn : 0 < n) (xi yi : ℕ) (hx : xi < n) (hy : yi < n) :
    triArea (mesh2d n l r top bottom x1 x2 y1 y2 f).verts
        (yi*(n+1) + xi + 1, yi*(n+1) + xi + (n+1), yi*(n+1) + xi + (n+1) + 1)
      = ((top - bottom) / n) * ((r - l) / n) := by
  have hΔX : lerp l r (tpar n (yi+1)) - lerp l r (tpar n yi) = (r - l) / n := by
    rw [lerp_diff, tpar_succ_sub n yi hn, one_div, inv_mul_eq_div]
  have hΔY : lerp bottom top (tpar n (xi+1)) - lerp bottom top (tpar n xi)
      = (top - bottom) / n := by
    rw [lerp_diff, tpar_succ_sub n xi hn, one_div, inv_mul_eq_div]
  have p1 := mesh2d_vpos n l r top bottom x1 x2 y1 y2 f (yi*(n+1) + xi + 1)
    (by nlinarith)
  have p2 := mesh2d_vpos n l r top bottom x1 x2 y1 y2 f (yi*(n+1) + xi + (n+1))
    (by nlinarith)
  have p3 := mesh2d_vpos n l r top bottom x1 x2 y1 y2 f (yi*(n+1) + xi + (n+1) + 1)
    (by nlinarith)
  rw [show yi*(n+1) + xi + 1 = yi*(n+1) + (xi+1) by ring,
    grid_div n yi (xi+1) (by omega), grid_mod n yi (xi+1) (by omega)] at p1
  rw [show yi*(n+1) + xi + (n+1) = (yi+1)*(n+1) + xi by ring,
    grid_div n (yi+1) xi (by omega), grid_mod n (yi+1) xi (by omega)] at p2
  rw [show yi*(n+1) + xi + (n+1) + 1 = (yi+1)*(n+1) + (xi+1) by ring,
    grid_div n (yi+1) (xi+1) (by omega), grid_mod n (yi+1) (xi+1) (by omega)] at p3
  unfold triArea
  dsimp only
  rw [show yi*(n+1) + xi + 1 = yi*(n+1) + (xi+1) by ring,
    show yi*(n+1) + xi + (n+1) + 1 = (yi+1)*(n+1) + (xi+1) by ring,
    show yi*(n+1) + xi + (n+1) = (yi+1)*(n+1) + xi by ring]
  rw [p1, p2, p3]
  unfold area2
  dsimp only
  rw [← hΔX, ← hΔY]
  ring

/-- C5 amended: in every grid cell `(xi, yi)` of the 2-D mesh, the two
triangles emitted for that cell (lines 186-192) are wound with
opposite orientations in the vertex-position plane: the first has
positive doubled signed area, the second negative (the shared diagonal
is traversed in the same direction by both triangles). -/
theorem mesh2d_cell_triangles_opposite {α : Type} (n : ℕ)
    (l r top bottom x1 x2 y1 y2 : ℚ) (f : ℚ → ℚ → α)
    (hn : 0 < n) (hlr : l < r) (htb : top < bottom)
    (xi yi : ℕ) (hx : xi < n) (hy : yi < n) :
    (yi*(n+1) + xi, yi*(n+1) + xi + 1, yi*(n+1) + xi + (n+1))
        ∈ (mesh2d n l r top bottom x1 x2 y1 y2 f).tris ∧
    (yi*(n+1) + xi + 1, yi*(n+1) + xi + (n+1), yi*(n+1) + xi + (n+1) + 1)
        ∈ (mesh2d n l r top bottom x1 x2 y1 y2 f).tris ∧
    0 < triArea (mesh2d n l r top bottom x1 x2 y1 y2 f).verts
        (yi*(n+1) + xi, yi*(n+1) + xi + 1, yi*(n+1) + xi + (n+1)) ∧
    triArea (mesh2d n l r top bottom x1 x2 y1 y2 f).verts
        (yi*(n+1) + xi + 1, yi*(n+1) + xi + (n+1), yi*(n+1) + xi + (n+1) + 1) < 0 := by
  obtain ⟨m1, m2⟩ := mesh2d_tri_pair_mem n l r top bottom x1 x2 y1 y2 f xi yi hx hy
  have hneg : (top - bottom) / (n:ℚ) < 0 :=
    div_neg_of_neg_of_pos (by linarith) (Nat.cast_pos.2 hn)
  have hpos : 0 < (r - l) / (n:ℚ) := div_pos (by linarith) (Nat.cast_pos.2 hn)
  refine ⟨m1, m2, ?_, ?_⟩
  · rw [mesh2d_cellArea_first n l r top bottom x1 x2 y1 y2 f hn xi yi hx hy]
    nlinarith
  · rw [mesh2d_cellArea_second n l r top bottom x1 x2 y1 y2 f hn xi yi hx hy]
    nlinarith

/-- Witness for `mesh2d_cell_triangles_opposite` at `n = N = 36`,
unit rect, unit ranges, cell `(2, 3)`. -/
theorem mesh2d_cell_triangles_opposite_witness :
    (0 < N ∧ (0:ℚ) < 1 ∧ (0:ℚ) < 1 ∧ 2 < N ∧ 3 < N) ∧
    ((3*(N+1) + 2, 3*(N+1) + 2 + 1, 3*(N+1) + 2 + (N+1))
        ∈ (mesh2d N 0 1 0 1 0 1 0 1 (fun _ _ => (0:ℚ))).tris ∧
     (3*(N+1) + 2 + 1, 3*(N+1) + 2 + (N+1), 3*(N+1) + 2 + (N+1) + 1)
        ∈ (mesh2d N 0 1 0 1 0 1 0 1 (fun _ _ => (0:ℚ))).tris ∧
     0 < triArea (mesh2d N 0 1 0 1 0 1 0 1 (fun _ _ => (0:ℚ))).verts
        (3*(N+1) + 2, 3*(N+1) + 2 + 1, 3*(N+1) + 2 + (N+1)) ∧
     triArea (mesh2d N 0 1 0 1 0 1 0 1 (fun _ _ => (0:ℚ))).verts
        (3*(N+1) + 2 + 1, 3*(N+1) + 2 + (N+1), 3*(N+1) + 2 + (N+1) + 1) < 0) :=
  ⟨⟨by norm_num [N], one_pos, one_pos, by norm_num [N], by norm_num [N]⟩,
    mesh2d_cell_triangles_opposite N 0 1 0 1 0 1 0 1 (fun _ _ => (0:ℚ))
      (by norm_num [N]) one_pos one_pos 2 3 (by norm_num [N]) (by norm_num [N])⟩

/-- C5 counterexample: at the source's `N = 36` over the unit rect,
the two triangles of grid cell `(0, 0)` — index triples `(0, 1, 37)`
and `(1, 37, 38)` — have doubled signed areas of opposite sign, so the
cell's triangles are NOT wound with the same orientation. -/
theorem mesh2d_cell_windings_differ :
    ((0, 1, 37) ∈ (mesh2d N 0 1 0 1 0 1 0 1 (fun _ _ => (0:ℚ))).tris ∧
     (1, 37, 38) ∈ (mesh2d N 0 1 0 1 0 1 0 1 (fun _ _ => (0:ℚ))).tris) ∧
    triArea (mesh2d N 0 1 0 1 0 1 0 1 (fun _ _ => (0:ℚ))).verts (0, 1, 37) = 1/1296 ∧
    triArea (mesh2d N 0 1 0 1 0 1 0 1 (fun _ _ => (0:ℚ))).verts (1, 37, 38) = -(1/1296) := by
  have h1 := mesh2d_tri_pair_mem N 0 1 0 1 0 1 0 1 (fun _ _ => (0:ℚ)) 0 0
    (by norm_num [N]) (by norm_num [N])
  have h2 := mesh2d_cellArea_first N 0 1 0 1 0 1 0 1 (fun _ _ => (0:ℚ))
    (by norm_num [N]) 0 0 (by norm_num [N]) (by norm_num [N])
  have h3 := mesh2d_cellArea_second N 0 1 0 1 0 1 0 1 (fun _ _ => (0:ℚ))
    (by norm_num [N]) 0 0 (by norm_num [N]) (by norm_num [N])
  norm_num [N] at h1 h2 h3
  exact ⟨h1, h2, h3⟩

/-!
Color conversion, round-trip cache and edit orchestration.

The widget's working color is `PerceptualLCh = ColorAlpha<Oklch, Separate>`
and its display color `Asset = ColorAlpha<EncodedSrgb, Premultiplied>`
(lines 9-10).  The conversion code lives in the external `colstodian`
crate and the cache module (`mod cache`, line 23) is not part of
`src/`, so both are modelled from the spec (sections 4.1 and 4.5):
the perceptual math follows the standard Oklab reference with exact
rational versions of its constants, and the transcendental primitives
(cosine, sine, the nonlinear gamma branches, cube root, square root,
atan2), which have no exact rational form, are taken as parameters of
the pipeline in a `RealFns` bundle.
-/

/-- Rational stand-ins for the transcendental primitives of the color
math.  All pipeline theorems are stated for an arbitrary bundle. -/
structure RealFns where
  cosf : ℚ → ℚ
  sinf : ℚ → ℚ
  genc : ℚ → ℚ
  gdec : ℚ → ℚ
  cbrt : ℚ → ℚ
  sqrtf : ℚ → ℚ
  atan2f : ℚ → ℚ → ℚ

/-- The working perceptual color: lightness, chroma, hue, alpha
(`ColorAlpha<Oklch, Separate>`). -/
structure PerceptualLCh where
  l : ℚ
  c : ℚ
  h : ℚ
  alpha : ℚ
deriving DecidableEq

/-- The quantized display color: 8-bit encoded sRGB, premultiplied
(`Asset::to_u8()`, four bytes). -/
structure DisplayBytes where
  r : ℕ
  g : ℕ
  b : ℕ
  a : ℕ
deriving DecidableEq

def clamp01 (x : ℚ) : ℚ := max 0 (min 1 x)

/-- Quantization of a `[0,1]` channel to an 8-bit value (round to
nearest). -/
def u8ofQ (x : ℚ) : ℕ := (Int.floor (clamp01 x * 255 + 1/2)).toNat

/-- Modelled from the spec: sRGB gamma encoding; the linear branch is
exact, the power branch is the parameter `F.genc`. -/
def srgb_encode (F : RealFns) (x : ℚ) : ℚ :=
  if x ≤ 31308 / 10^7 then (323/25) * x else F.genc x

/-- Modelled from the spec: sRGB gamma decoding; the linear branch is
exact, the power branch is the parameter `F.gdec`. -/
def srgb_decode (F : RealFns) (x : ℚ) : ℚ :=
  if x ≤ 4045 / 10^5 then x / (323/25) else F.gdec x

/-- Oklab to linear sRGB (reference constants; exact rational): the
inverse transformation matrix, a cube, and the LMS-to-RGB matrix. -/
def oklab_to_linear_srgb (L a b : ℚ) : ℚ × ℚ × ℚ :=
  let l_ := L + 0.3963377774 * a + 0.2158037573 * b
  let m_ := L - 0.1055613458 * a - 0.0638541728 * b
  let s_ := L - 0.0894841775 * a - 1.2914855480 * b
  (4.0767416621 * l_^3 - 3.3077115913 * m_^3 + 0.2309699292 * s_^3,
   -1.2684380046 * l_^3 + 2.6097574011 * m_^3 - 0.3413193965 * s_^3,
   -0.0041960863 * l_^3 - 0.7034186147 * m_^3 + 1.7076147010 * s_^3)

/-- Linear sRGB to Oklab (reference constants; cube roots via `F.cbrt`). -/
def linear_srgb_to_oklab (F : RealFns) (r g b : ℚ) : ℚ × ℚ × ℚ :=
  let l' := F.cbrt (0.4122214708 * r + 0.5363325363 * g + 0.0514459929 * b)
  let m' := F.cbrt (0.2119034982 * r + 0.6806995451 * g + 0.1073969566 * b)
  let s' := F.cbrt (0.0883024619 * r + 0.2817188376 * g + 0.6299787005 * b)
  (0.2104542553 * l' + 0.7936177850 * m' - 0.0040720468 * s',
   1.9779984951 * l' - 2.4285922050 * m' + 0.4505937099 * s',
   0.0259040371 * l' + 0.7827717662 * m' - 0.8086757660 * s')

/-- Modelled from the spec (4.1): `to_display`.  Oklch to Oklab via
`a = C cos h`, `b = C sin h`, Oklab to linear sRGB, per-channel gamut
clamp, premultiplication by the normalized alpha BEFORE encoding, then
8-bit quantization (the composite `convert::<EncodedSrgb,
Premultiplied>().to_u8()` of lines 18, 302, 348). -/
def to_display (F : RealFns) (p : PerceptualLCh) : DisplayBytes :=
  let a_ := p.c * F.cosf p.h
  let b_ := p.c * F.sinf p.h
  let rgb := oklab_to_linear_srgb p.l a_ b_
  let al := clamp01 p.alpha
  { r := u8ofQ (srgb_encode F (clamp01 rgb.1 * al)),
    g := u8ofQ (srgb_encode F (clamp01 rgb.2.1 * al)),
    b := u8ofQ (srgb_encode F (clamp01 rgb.2.2 * al)),
    a := u8ofQ al }

/-- Modelled from the spec (4.1): `to_perceptual`.  Decode each 8-bit
channel, un-premultiply (alpha zero yields black instead of dividing
by zero), convert linear sRGB to Oklab and then to cylindrical
`(L, C, h)` (the `color.convert()` fallback of line 344). -/
def to_perceptual (F : RealFns) (d : DisplayBytes) : PerceptualLCh :=
  let al : ℚ := (d.a : ℚ) / 255
  let dec := fun (ch : ℕ) =>
    if al = 0 then 0 else srgb_decode F ((ch : ℚ) / 255) / al
  let lab := linear_srgb_to_oklab F (dec d.r) (dec d.g) (dec d.b)
  { l := lab.1,
    c := F.sqrtf (lab.2.1^2 + lab.2.2^2),
    h := F.atan2f lab.2.2 lab.2.1,
    alpha := al }

/-- Modelled from the spec (4.5): the round-trip cache, a key-value
store from exact display bytes to the perceptual color that last
produced them; `get` returns the most recently `set` binding.
Capacity/eviction is left open by the spec; the model is unbounded. -/
def cacheGet (c : List (DisplayBytes × PerceptualLCh)) (k : DisplayBytes) :
    Option PerceptualLCh :=
  (c.find? (fun e => decide (e.1 = k))).map Prod.snd

/-- Modelled from the spec (4.5): `set` overwrites the binding for `k`. -/
def cacheSet (c : List (DisplayBytes × PerceptualLCh)) (k : DisplayBytes)
    (v : PerceptualLCh) : List (DisplayBytes × PerceptualLCh) :=
  (k, v) :: c.filter (fun e => decide (e.1 ≠ k))

/-- Per-frame slider geometry: the x-extents of the four 1-D slider
rects (alpha, hue, chroma, lightness) and the full rect of the 2-D
chroma/lightness slider. -/
structure SliderRects where
  alphaL : ℚ
  alphaR : ℚ
  hueL : ℚ
  hueR : ℚ
  chromaL : ℚ
  chromaR : ℚ
  lightL : ℚ
  lightR : ℚ
  cl2L : ℚ
  cl2R : ℚ
  cl2Top : ℚ
  cl2Bottom : ℚ

/-- The pointer activity of one frame: for each slider, the pointer
position if that slider is being clicked/dragged (at most one per
slider per pass, matching immediate mode). -/
structure Interactions where
  alphaPtr : Option ℚ
  huePtr : Option ℚ
  chromaPtr : Option ℚ
  lightPtr : Option ℚ
  cl2Ptr : Option (ℚ × ℚ)

/-- The working-color mutations of one `color_picker_oklch_2d` pass
(lines 243-291), applied in widget order: alpha slider into `0..=1`,
hue into `-PI..=PI`, chroma into `0.0..=0.5`, lightness into `0.0..=1.0`,
then the 2-D slider writing chroma (x axis) and lightness (y axis,
`bottom..=top`). -/
def applyInteractions (g : SliderRects) (it : Interactions)
    (p0 : PerceptualLCh) : PerceptualLCh :=
  let p1 := match it.alphaPtr with
    | none => p0
    | some px => { p0 with alpha := remap_clamp px g.alphaL g.alphaR 0 1 }
  let p2 := match it.huePtr with
    | none => p1
    | some px => { p1 with h := remap_clamp px g.hueL g.hueR (-PI32) PI32 }
  let p3 := match it.chromaPtr with
    | none => p2
    | some px => { p2 with c := remap_clamp px g.chromaL g.chromaR 0 (1/2) }
  let p4 := match it.lightPtr with
    | none => p3
    | some px => { p3 with l := remap_clamp px g.lightL g.lightR 0 1 }
  match it.cl2Ptr with
  | none => p4
  | some pxy =>
      { p4 with c := remap_clamp pxy.1 g.cl2L g.cl2R 0 (1/2),
                l := remap_clamp pxy.2 g.cl2Bottom g.cl2Top 0 1 }

/-- Working color at popup entry (lines 337-344): the cache entry for
the incoming display bytes, or direct conversion if absent. -/
def seedColor (F : RealFns) (cache : List (DisplayBytes × PerceptualLCh))
    (dc : DisplayBytes) : PerceptualLCh :=
  (cacheGet cache dc).getD (to_perceptual F dc)

/-- Result of one edit pass. -/
structure EditResult where
  color : DisplayBytes
  changed : Bool
  cache : List (DisplayBytes × PerceptualLCh)
  seed : PerceptualLCh
  working : PerceptualLCh

/-- One pass of the display-color edit entry point with the popup open
(`color_edit_button_inner`, lines 333-357): seed the working Oklch
color from the cache (or direct conversion), apply the picker's slider
interactions, report `changed` by comparing the full-precision working
color with its value at entry (lines 294-298), convert the working
color back to display bytes (line 348) and commit the cache entry
keyed by those bytes (lines 350-354). -/
def edit (F : RealFns) (g : SliderRects) (it : Interactions)
    (cache : List (DisplayBytes × PerceptualLCh)) (dc : DisplayBytes) :
    EditResult :=
  let s := seedColor F cache dc
  let w := applyInteractions g it s
  let changed : Bool := if w = s then false else true
  let d' := to_display F w
  { color := d', changed := changed, cache := cacheSet cache d' w,
    seed := s, working := w }

theorem cacheGet_cons_self (c : List (DisplayBytes × PerceptualLCh))
    (k : DisplayBytes) (v : PerceptualLCh) : cacheGet ((k, v) :: c) k = some v := by
  unfold cacheGet
  rw [List.find?_cons_of_pos _ (by simp)]
  rfl

theorem cacheGet_set_self (c : List (DisplayBytes × PerceptualLCh))
    (k : DisplayBytes) (v : PerceptualLCh) : cacheGet (cacheSet c k v) k = some v :=
  cacheGet_cons_self _ k v

/-- Concrete rational stand-ins for the transcendental primitives,
used to instantiate the closed scenario theorems below.  The scenarios
are chosen so these are only exercised where the exact transcendental
value cannot matter (achromatic colors multiply the trigonometric
factors by chroma 0; channel values stay on the exact linear gamma
branch; cube root, square root and atan2 are applied to 0 only). -/
def Qsur : RealFns where
  cosf := fun x => 1 - x^2/2
  sinf := fun x => x - x^3/6
  genc := fun x => x
  gdec := fun x => x
  cbrt := fun x => x
  sqrtf := fun x => x
  atan2f := fun _ _ => 0

/-- C9: For every transcendental-primitive bundle and every perceptual
color with alpha exactly 0, the display conversion premultiplies every
gamut-clamped RGB channel by the normalized alpha before encoding, so
the resulting bytes have R = G = B = 0 regardless of lightness, chroma
and hue (the premultiplied invariant at A = 0). -/
theorem to_display_alpha_zero (F : RealFns) (p : PerceptualLCh)
    (h : p.alpha = 0) :
    (to_display F p).r = 0 ∧ (to_display F p).g = 0 ∧ (to_display F p).b = 0 := by
  have hz : ∀ x : ℚ, u8ofQ (srgb_encode F (clamp01 x * clamp01 p.alpha)) = 0 := by
    intro x
    rw [h]
    norm_num [clamp01, srgb_encode, u8ofQ, min_def, max_def]
  exact ⟨hz _, hz _, hz _⟩

/-- Witness for `to_display_alpha_zero` at `Qsur` and
`(L, C, h, A) = (3/10, 1/5, 2, 0)`. -/
theorem to_display_alpha_zero_witness :
    (⟨3/10, 1/5, 2, 0⟩ : PerceptualLCh).alpha = 0 ∧
    ((to_display Qsur ⟨3/10, 1/5, 2, 0⟩).r = 0 ∧
     (to_display Qsur ⟨3/10, 1/5, 2, 0⟩).g = 0 ∧
     (to_display Qsur ⟨3/10, 1/5, 2, 0⟩).b = 0) :=
  ⟨rfl, to_display_alpha_zero Qsur ⟨3/10, 1/5, 2, 0⟩ rfl⟩

/-- Slider geometry of the closed scenarios: every slider rect spans
`[0, 256]` horizontally; the 2-D rect has top 0 and bottom 256. -/
def G0 : SliderRects := ⟨0, 256, 0, 256, 0, 256, 0, 256, 0, 256, 0, 256⟩

/-- One frame interacting only with the hue slider, pointer at x=192. -/
def It0 : Interactions := ⟨none, some 192, none, none, none⟩

/-- One frame dragging hue to x=192 and chroma to the left edge. -/
def It2 : Interactions := ⟨none, some 192, some 0, none, none⟩

theorem hue192 : remap_clamp 192 0 256 (-PI32) PI32 = PI32 / 2 := by
  norm_num [remap_clamp, remapClampCore, lerp, PI32]

theorem chroma_left_edge : remap_clamp 0 0 256 0 (1/2) = 0 := by
  norm_num [remap_clamp, remapClampCore]

theorem apply_It0 (p : PerceptualLCh) :
    applyInteractions G0 It0 p = { p with h := PI32 / 2 } := by
  unfold applyInteractions It0 G0
  dsimp only
  rw [hue192]

theorem apply_It2 (p : PerceptualLCh) :
    applyInteractions G0 It2 p = { p with h := PI32 / 2, c := 0 } := by
  unfold applyInteractions It2 G0
  dsimp only
  rw [hue192, chroma_left_edge]

theorem disp_gray_tenth (hq : ℚ) :
    to_display Qsur ⟨1/10, 0, hq, 1⟩ = ⟨3, 3, 3, 255⟩ := by
  unfold to_display Qsur oklab_to_linear_srgb
  norm_num [clamp01, srgb_encode, u8ofQ, min_def, max_def]
  omega

theorem disp_black (hq : ℚ) :
    to_display Qsur ⟨0, 0, hq, 1⟩ = ⟨0, 0, 0, 255⟩ := by
  unfold to_display Qsur oklab_to_linear_srgb
  norm_num [clamp01, srgb_encode, u8ofQ, min_def, max_def]
  omega

theorem seed_gray_tenth :
    seedColor Qsur [(⟨3,3,3,255⟩, ⟨1/10, 0, 0, 1⟩)] ⟨3,3,3,255⟩
      = ⟨1/10, 0, 0, 1⟩ := by
  unfold seedColor
  rw [cacheGet_cons_self]
  rfl

theorem seeddisp_gray :
    to_display Qsur (seedColor Qsur [(⟨3,3,3,255⟩, ⟨1/10, 0, 0, 1⟩)] ⟨3,3,3,255⟩)
      = ⟨3,3,3,255⟩ := by
  rw [seed_gray_tenth]
  exact disp_gray_tenth 0

/-- C1 counterexample: starting from the committed gray
`(3,3,3,255)` whose cache entry is the achromatic
`(L,C,h,A) = (1/10, 0, 0, 1)`, one edit pass that drags the hue slider
(to hue pi/2) reports `changed = true` although the returned
DisplayColor equals the one passed in: `changed` compares the
full-precision perceptual color, not the quantized display color. -/
theorem edit_changed_despite_equal_display :
    (edit Qsur G0 It0 [(⟨3,3,3,255⟩, ⟨1/10, 0, 0, 1⟩)] ⟨3,3,3,255⟩).changed = true ∧
    (edit Qsur G0 It0 [(⟨3,3,3,255⟩, ⟨1/10, 0, 0, 1⟩)] ⟨3,3,3,255⟩).color
      = ⟨3,3,3,255⟩ := by
  have hne : ({ (⟨1/10, 0, 0, 1⟩ : PerceptualLCh) with h := PI32 / 2 })
      ≠ (⟨1/10, 0, 0, 1⟩ : PerceptualLCh) := by
    norm_num [PI32]
  unfold edit
  dsimp only
  rw [seed_gray_tenth, apply_It0]
  exact ⟨by rw [if_neg hne], disp_gray_tenth (PI32 / 2)⟩

/-- C1 amended: whenever the seeded working color converts back to the
incoming display bytes (true in particular for every cache hit written
by a previous pass), `edit` returns `changed = true` if and only if the
working PerceptualColor at return differs from the seeded working
PerceptualColor; a changed returned DisplayColor therefore implies
`changed = true`, but `changed` may be true while the DisplayColor is
unchanged (quantization collapses distinct perceptual colors). -/
theorem edit_changed_iff_perceptual (F : RealFns) (g : SliderRects)
    (it : Interactions) (cache : List (DisplayBytes × PerceptualLCh))
    (dc : DisplayBytes)
    (hseed : to_display F (seedColor F cache dc) = dc) :
    ((edit F g it cache dc).changed = true ↔
      (edit F g it cache dc).working ≠ (edit F g it cache dc).seed) ∧
    ((edit F g it cache dc).color ≠ dc → (edit F g it cache dc).changed = true) := by
  unfold edit
  dsimp only
  constructor
  · by_cases hws : applyInteractions g it (seedColor F cache dc) = seedColor F cache dc
    · rw [if_pos hws]
      simp [hws]
    · rw [if_neg hws]
      simp [hws]
  · intro hcol
    by_cases hws : applyInteractions g it (seedColor F cache dc) = seedColor F cache dc
    · exact absurd (by rw [hws, hseed]) hcol
    · rw [if_neg hws]

/-- Witness for `edit_changed_iff_perceptual` at the gray scenario of
the counterexample. -/
theorem edit_changed_iff_perceptual_witness :
    to_display Qsur (seedColor Qsur [(⟨3,3,3,255⟩, ⟨1/10, 0, 0, 1⟩)] ⟨3,3,3,255⟩)
        = ⟨3,3,3,255⟩ ∧
    (((edit Qsur G0 It0 [(⟨3,3,3,255⟩, ⟨1/10, 0, 0, 1⟩)] ⟨3,3,3,255⟩).changed = true ↔
       (edit Qsur G0 It0 [(⟨3,3,3,255⟩, ⟨1/10, 0, 0, 1⟩)] ⟨3,3,3,255⟩).working
         ≠ (edit Qsur G0 It0 [(⟨3,3,3,255⟩, ⟨1/10, 0, 0, 1⟩)] ⟨3,3,3,255⟩).seed) ∧
     ((edit Qsur G0 It0 [(⟨3,3,3,255⟩, ⟨1/10, 0, 0, 1⟩)] ⟨3,3,3,255⟩).color
         ≠ ⟨3,3,3,255⟩ →
       (edit Qsur G0 It0 [(⟨3,3,3,255⟩, ⟨1/10, 0, 0, 1⟩)] ⟨3,3,3,255⟩).changed = true)) :=
  ⟨seeddisp_gray,
    edit_changed_iff_perceptual Qsur G0 It0 [(⟨3,3,3,255⟩, ⟨1/10, 0, 0, 1⟩)]
      ⟨3,3,3,255⟩ seeddisp_gray⟩

/-- C2: After any edit pass whose committed working color has chroma 0,
a subsequent edit pass starting from the returned display bytes (with
the updated cache) seeds its working color from the cache entry just
written and therefore recovers the committed color — in particular its
hue — exactly; and whenever no cache entry exists for the incoming
display bytes, the seed falls back to direct reverse conversion. -/
theorem edit_commit_then_reopen_recovers_hue (F : RealFns)
    (g g2 : SliderRects) (it it2 : Interactions)
    (cache : List (DisplayBytes × PerceptualLCh)) (dc : DisplayBytes)
    (hC : (edit F g it cache dc).working.c = 0) :
    (edit F g2 it2 (edit F g it cache dc).cache
        (edit F g it cache dc).color).seed = (edit F g it cache dc).working ∧
    (edit F g2 it2 (edit F g it cache dc).cache
        (edit F g it cache dc).color).seed.h = (edit F g it cache dc).working.h ∧
    (cacheGet cache dc = none →
      (edit F g it cache dc).seed = to_perceptual F dc) := by
  have hmain : (edit F g2 it2 (edit F g it cache dc).cache
      (edit F g it cache dc).color).seed = (edit F g it cache dc).working := by
    unfold edit
    dsimp only
    unfold seedColor
    rw [cacheGet_set_self]
    rfl
  refine ⟨hmain, by rw [hmain], ?_⟩
  intro hnone
  unfold edit
  dsimp only
  unfold seedColor
  rw [hnone]
  rfl

theorem perc_black : to_perceptual Qsur ⟨0, 0, 0, 255⟩ = ⟨0, 0, 0, 1⟩ := by
  unfold to_perceptual Qsur srgb_decode linear_srgb_to_oklab
  norm_num

theorem seed_black : seedColor Qsur [] ⟨0, 0, 0, 255⟩ = ⟨0, 0, 0, 1⟩ := by
  unfold seedColor
  rw [show cacheGet [] (⟨0,0,0,255⟩ : DisplayBytes) = none from rfl,
    Option.getD_none]
  exact perc_black

theorem edit2_working :
    (edit Qsur G0 It2 [] ⟨0, 0, 0, 255⟩).working = ⟨0, 0, PI32 / 2, 1⟩ := by
  unfold edit
  dsimp only
  rw [seed_black, apply_It2]

/-- Witness for `edit_commit_then_reopen_recovers_hue`: starting from
opaque black with an empty cache, one pass drags chroma to 0 and hue to
pi/2; the committed working color has chroma 0 and the reopening pass
recovers hue pi/2 from the cache. -/
theorem edit_commit_then_reopen_recovers_hue_witness :
    (edit Qsur G0 It2 [] ⟨0, 0, 0, 255⟩).working.c = 0 ∧
    ((edit Qsur G0 It2 (edit Qsur G0 It2 [] ⟨0, 0, 0, 255⟩).cache
        (edit Qsur G0 It2 [] ⟨0, 0, 0, 255⟩).color).seed
        = (edit Qsur G0 It2 [] ⟨0, 0, 0, 255⟩).working ∧
     (edit Qsur G0 It2 (edit Qsur G0 It2 [] ⟨0, 0, 0, 255⟩).cache
        (edit Qsur G0 It2 [] ⟨0, 0, 0, 255⟩).color).seed.h
        = (edit Qsur G0 It2 [] ⟨0, 0, 0, 255⟩).working.h ∧
     (cacheGet [] ⟨0, 0, 0, 255⟩ = none →
       (edit Qsur G0 It2 [] ⟨0, 0, 0, 255⟩).seed = to_perceptual Qsur ⟨0, 0, 0, 255⟩)) :=
  ⟨by rw [edit2_working],
    edit_commit_then_reopen_recovers_hue Qsur G0 G0 It2 It2 [] ⟨0, 0, 0, 255⟩
      (by rw [edit2_working])⟩
